import Mathlib

/-!
Verification of the procedural generation core of the vrbox2 repository.

The JavaScript source is embedded shallowly over exact rational arithmetic:
JS numbers become `ℚ` (the noise pipeline uses only ring operations, floor
and division, all exact on rationals), fallible float operations that the
claims mention (`Math.sqrt`, trigonometric calls) are either bridged to
`Real.sqrt` through equivalence lemmas or abstracted as oracle parameters,
and the one place where IEEE NaN behaviour is the point of a claim is
modelled with `Option ℚ` (`none` = invalid / NaN).
-/

namespace VrBox

/-! ## MathUtils (js/utils/MathUtils.js)

`initNoise` builds a 256-entry permutation table `p` (a Fisher-Yates
shuffle of `0..255`) and duplicates it to 512 entries:
`noiseTable[i] = noiseTable[i + 256] = p[i]`.  We model the table by its
underlying 256-entry map; `tbl` performs the duplicated-array lookup,
which for every index `i < 512` actually read by the noise functions
agrees with `p (i % 256)`.  Theorems quantify over an arbitrary table,
hence in particular over every valid (bijective) permutation table. -/

structure PermTable where
  p : Fin 256 → Fin 256

/-- Lookup in the duplicated 512-entry noise table. -/
def tbl (T : PermTable) (i : ℕ) : ℕ :=
  (T.p ⟨i % 256, Nat.mod_lt i (by norm_num)⟩).val

/-- The identity permutation table (used to evaluate concrete runs). -/
def idTable : PermTable := ⟨fun i => i⟩

/-- MathUtils.fade: `t * t * t * (t * (t * 6 - 15) + 10)`. -/
def fade (t : ℚ) : ℚ :=
  t * t * t * (t * (t * 6 - 15) + 10)

/-- MathUtils.lerp: `a + (b - a) * t`. -/
def lerp (a b t : ℚ) : ℚ :=
  a + (b - a) * t

/-- MathUtils.grad2D: hash selects one of the gradients; `h = hash & 3`,
`u = h < 2 ? x : y`, `v = h < 2 ? y : x`, result
`((h & 1) === 0 ? u : -u) + ((h & 2) === 0 ? v : -v)`. -/
def grad2D (hash : ℕ) (x y : ℚ) : ℚ :=
  let h := hash &&& 3
  let u := if h < 2 then x else y
  let v := if h < 2 then y else x
  (if h &&& 1 = 0 then u else -u) + (if h &&& 2 = 0 then v else -v)

/-- MathUtils.grad3D: `h = hash & 15`, `u = h < 8 ? x : y`,
`v = h < 4 ? y : (h === 12 or h === 14 ? x : z)`, signs from `h & 1`, `h & 2`. -/
def grad3D (hash : ℕ) (x y z : ℚ) : ℚ :=
  let h := hash &&& 15
  let u := if h < 8 then x else y
  let v := if h < 4 then y else (if h = 12 ∨ h = 14 then x else z)
  (if h &&& 1 = 0 then u else -u) + (if h &&& 2 = 0 then v else -v)

/-- The interpolation core of MathUtils.noise, with the four corner hash
values already looked up.  `xf`, `yf` are the fractional offsets. -/
def noiseCore (hAA hBA hAB hBB : ℕ) (xf yf : ℚ) : ℚ :=
  let u := fade xf
  let v := fade yf
  lerp
    (lerp (grad2D hAA xf yf) (grad2D hBA (xf - 1) yf) u)
    (lerp (grad2D hAB xf (yf - 1)) (grad2D hBB (xf - 1) (yf - 1)) u)
    v

/-- MathUtils.noise (2D Perlin noise).  `X = Math.floor(x) & 255` becomes
`(⌊x⌋ % 256).toNat` (JS `&255` on a 32-bit integer is the nonnegative
remainder mod 256), the fractional parts are `x - ⌊x⌋`, and the corner
hashes are looked up exactly as in the source:
`A = tbl[X] + Y; AA = tbl[A]; AB = tbl[A+1]; B = tbl[X+1] + Y;
BA = tbl[B]; BB = tbl[B+1]`. -/
def noise (T : PermTable) (x y : ℚ) : ℚ :=
  let X : ℕ := ((⌊x⌋ % 256 : ℤ)).toNat
  let Y : ℕ := ((⌊y⌋ % 256 : ℤ)).toNat
  let xf : ℚ := x - ⌊x⌋
  let yf : ℚ := y - ⌊y⌋
  let A := tbl T X + Y
  let AA := tbl T A
  let AB := tbl T (A + 1)
  let B := tbl T (X + 1) + Y
  let BA := tbl T B
  let BB := tbl T (B + 1)
  noiseCore (tbl T AA) (tbl T BA) (tbl T AB) (tbl T BB) xf yf

/-- MathUtils.noise3D, embedded the same way as `noise`. -/
def noise3D (T : PermTable) (x y z : ℚ) : ℚ :=
  let X : ℕ := ((⌊x⌋ % 256 : ℤ)).toNat
  let Y : ℕ := ((⌊y⌋ % 256 : ℤ)).toNat
  let Z : ℕ := ((⌊z⌋ % 256 : ℤ)).toNat
  let xf : ℚ := x - ⌊x⌋
  let yf : ℚ := y - ⌊y⌋
  let zf : ℚ := z - ⌊z⌋
  let u := fade xf
  let v := fade yf
  let w := fade zf
  let A := tbl T X + Y
  let AA := tbl T A + Z
  let AB := tbl T (A + 1) + Z
  let B := tbl T (X + 1) + Y
  let BA := tbl T B + Z
  let BB := tbl T (B + 1) + Z
  lerp
    (lerp
      (lerp (grad3D (tbl T AA) xf yf zf) (grad3D (tbl T BA) (xf - 1) yf zf) u)
      (lerp (grad3D (tbl T AB) xf (yf - 1) zf) (grad3D (tbl T BB) (xf - 1) (yf - 1) zf) u)
      v)
    (lerp
      (lerp (grad3D (tbl T (AA + 1)) xf yf (zf - 1)) (grad3D (tbl T (BA + 1)) (xf - 1) yf (zf - 1)) u)
      (lerp (grad3D (tbl T (AB + 1)) xf (yf - 1) (zf - 1)) (grad3D (tbl T (BB + 1)) (xf - 1) (yf - 1) (zf - 1)) u)
      v)
    w

/-! ### Bounds on fade, grad2D and the interpolated noise value -/

lemma fade_nonneg {t : ℚ} (h0 : 0 ≤ t) : 0 ≤ fade t := by
  have key : fade t = t ^ 3 * (6 * t ^ 2 - 15 * t + 10) := by unfold fade; ring
  have hq : 0 ≤ 6 * t ^ 2 - 15 * t + 10 := by nlinarith [sq_nonneg (2 * t - 5 / 2)]
  have ht3 : 0 ≤ t ^ 3 := by positivity
  rw [key]; exact mul_nonneg ht3 hq

lemma fade_le_one {t : ℚ} (h0 : 0 ≤ t) (h1 : t ≤ 1) : fade t ≤ 1 := by
  have key : 1 - fade t = (1 - t) ^ 3 * (6 * t ^ 2 + 3 * t + 1) := by unfold fade; ring
  have hq : 0 ≤ 6 * t ^ 2 + 3 * t + 1 := by positivity
  have ht3 : 0 ≤ (1 - t) ^ 3 := by
    have : 0 ≤ 1 - t := by linarith
    positivity
  nlinarith [mul_nonneg ht3 hq]

/-- The key convexity fact behind the [-1,1] bound: with `u = fade t`,
the mixed term `(1-u)*t + u*(1-t)` never exceeds `1/2` on `[0,1]`. -/
lemma fade_mix_le_half {t : ℚ} (h0 : 0 ≤ t) (h1 : t ≤ 1) :
    (1 - fade t) * t + fade t * (1 - t) ≤ 1 / 2 := by
  have key : 1 / 2 - ((1 - fade t) * t + fade t * (1 - t)) =
      (1 - 2 * t) ^ 2 * (6 * t ^ 2 * (t - 1) ^ 2 + (1 + 2 * t * (1 - t))) / 2 := by
    unfold fade; ring
  have hq : 0 ≤ 6 * t ^ 2 * (t - 1) ^ 2 + (1 + 2 * t * (1 - t)) := by
    have h2 : 0 ≤ t * (1 - t) := mul_nonneg h0 (by linarith)
    have h3 : 0 ≤ 6 * t ^ 2 * (t - 1) ^ 2 :=
      mul_nonneg (mul_nonneg (by norm_num) (sq_nonneg t)) (sq_nonneg (t - 1))
    linarith
  nlinarith [mul_nonneg (sq_nonneg (1 - 2 * t)) hq]

lemma grad2D_abs_le (hash : ℕ) (a b : ℚ) : |grad2D hash a b| ≤ |a| + |b| := by
  have ha1 := le_abs_self a
  have ha2 := neg_abs_le a
  have hb1 := le_abs_self b
  have hb2 := neg_abs_le b
  have hcase : hash &&& 3 = 0 ∨ hash &&& 3 = 1 ∨ hash &&& 3 = 2 ∨ hash &&& 3 = 3 := by
    have := Nat.and_le_right (n := hash) (m := 3)
    omega
  rw [abs_le]
  rcases hcase with h | h | h | h <;> simp [grad2D, h] <;> constructor <;> linarith

lemma lerp_abs_le {a b t A B : ℚ} (ht0 : 0 ≤ t) (ht1 : t ≤ 1)
    (ha : |a| ≤ A) (hb : |b| ≤ B) :
    |lerp a b t| ≤ (1 - t) * A + t * B := by
  have key : lerp a b t = (1 - t) * a + t * b := by unfold lerp; ring
  have h1 : |(1 - t) * a| ≤ (1 - t) * A := by
    rw [abs_mul, abs_of_nonneg (by linarith : (0:ℚ) ≤ 1 - t)]
    exact mul_le_mul_of_nonneg_left ha (by linarith)
  have h2 : |t * b| ≤ t * B := by
    rw [abs_mul, abs_of_nonneg ht0]
    exact mul_le_mul_of_nonneg_left hb ht0
  calc |lerp a b t| = |(1 - t) * a + t * b| := by rw [key]
    _ ≤ |(1 - t) * a| + |t * b| := abs_add _ _
    _ ≤ (1 - t) * A + t * B := add_le_add h1 h2

/-- Core bound: for fractional offsets in `[0,1)` the interpolated noise
value is at most `1` in absolute value, whatever the corner hashes are. -/
lemma noiseCore_abs_le_one (hAA hBA hAB hBB : ℕ) {xf yf : ℚ}
    (hx0 : 0 ≤ xf) (hx1 : xf ≤ 1) (hy0 : 0 ≤ yf) (hy1 : yf ≤ 1) :
    |noiseCore hAA hBA hAB hBB xf yf| ≤ 1 := by
  have hu0 : 0 ≤ fade xf := fade_nonneg hx0
  have hu1 : fade xf ≤ 1 := fade_le_one hx0 hx1
  have hv0 : 0 ≤ fade yf := fade_nonneg hy0
  have hv1 : fade yf ≤ 1 := fade_le_one hy0 hy1
  have habs_xf : |xf| = xf := abs_of_nonneg hx0
  have habs_xf1 : |xf - 1| = 1 - xf := by rw [abs_sub_comm]; exact abs_of_nonneg (by linarith)
  have habs_yf : |yf| = yf := abs_of_nonneg hy0
  have habs_yf1 : |yf - 1| = 1 - yf := by rw [abs_sub_comm]; exact abs_of_nonneg (by linarith)
  have g00 := grad2D_abs_le hAA xf yf
  have g10 := grad2D_abs_le hBA (xf - 1) yf
  have g01 := grad2D_abs_le hAB xf (yf - 1)
  have g11 := grad2D_abs_le hBB (xf - 1) (yf - 1)
  rw [habs_xf, habs_yf] at g00
  rw [habs_xf1, habs_yf] at g10
  rw [habs_xf, habs_yf1] at g01
  rw [habs_xf1, habs_yf1] at g11
  have hL1 : |lerp (grad2D hAA xf yf) (grad2D hBA (xf - 1) yf) (fade xf)| ≤
      (1 - fade xf) * (xf + yf) + fade xf * ((1 - xf) + yf) :=
    lerp_abs_le hu0 hu1 g00 g10
  have hL2 : |lerp (grad2D hAB xf (yf - 1)) (grad2D hBB (xf - 1) (yf - 1)) (fade xf)| ≤
      (1 - fade xf) * (xf + (1 - yf)) + fade xf * ((1 - xf) + (1 - yf)) :=
    lerp_abs_le hu0 hu1 g01 g11
  have hall : |noiseCore hAA hBA hAB hBB xf yf| ≤
      (1 - fade yf) * ((1 - fade xf) * (xf + yf) + fade xf * ((1 - xf) + yf)) +
        fade yf * ((1 - fade xf) * (xf + (1 - yf)) + fade xf * ((1 - xf) + (1 - yf))) := by
    unfold noiseCore
    exact lerp_abs_le hv0 hv1 hL1 hL2
  have hmx := fade_mix_le_half hx0 hx1
  have hmy := fade_mix_le_half hy0 hy1
  nlinarith [hall, hmx, hmy, mul_nonneg hv0 hu0]

/-- Shared bound: 2D Perlin noise stays within `[-1, 1]` for every table
and every rational input. -/
lemma noise_abs_le_one (T : PermTable) (x y : ℚ) : |noise T x y| ≤ 1 := by
  have hx0 : 0 ≤ x - (⌊x⌋ : ℚ) := by
    have := Int.floor_le x
    linarith
  have hx1 : x - (⌊x⌋ : ℚ) ≤ 1 := by
    have := Int.lt_floor_add_one x
    push_cast at this ⊢
    linarith
  have hy0 : 0 ≤ y - (⌊y⌋ : ℚ) := by
    have := Int.floor_le y
    linarith
  have hy1 : y - (⌊y⌋ : ℚ) ≤ 1 := by
    have := Int.lt_floor_add_one y
    push_cast at this ⊢
    linarith
  unfold noise
  exact noiseCore_abs_le_one _ _ _ _ hx0 hx1 hy0 hy1

/-- At zero fractional offsets the interpolated value collapses to the
first corner gradient dotted with the zero offset, which vanishes. -/
lemma noiseCore_zero (hAA hBA hAB hBB : ℕ) :
    noiseCore hAA hBA hAB hBB 0 0 = 0 := by
  have hfade : fade 0 = 0 := by unfold fade; ring
  have hgrad : ∀ h : ℕ, grad2D h 0 0 = 0 := by
    intro h
    simp [grad2D]
  unfold noiseCore
  simp only [hfade, hgrad, lerp]
  ring

/-- Shared lattice-point lemma: 2D noise vanishes at integer inputs. -/
lemma noise_int_eq_zero (T : PermTable) (a b : ℤ) :
    noise T (a : ℚ) (b : ℚ) = 0 := by
  unfold noise
  rw [Int.floor_intCast, Int.floor_intCast]
  simp only [sub_self]
  exact noiseCore_zero _ _ _ _

/-- Shared helper: 2D noise vanishes at the origin. -/
lemma noise_zero_zero (T : PermTable) : noise T 0 0 = 0 := by
  have h := noise_int_eq_zero T 0 0
  push_cast at h
  exact h

/-! ### MathUtils.fractalNoise

The loop state is `(total, frequency, amplitude, maxValue)`, starting at
`(0, 1, 1, 0)`; each octave adds `noise(x*f, y*f) * amplitude` to the
total, adds `amplitude` to `maxValue`, multiplies the amplitude by the
persistence and doubles the frequency. -/

def fractalState (T : PermTable) (x y persistence : ℚ) : ℕ → ℚ × ℚ × ℚ × ℚ
  | 0 => (0, 1, 1, 0)
  | n + 1 =>
    let s := fractalState T x y persistence n
    (s.1 + noise T (x * s.2.1) (y * s.2.1) * s.2.2.1,
      s.2.1 * 2, s.2.2.1 * persistence, s.2.2.2 + s.2.2.1)

/-- MathUtils.fractalNoise: run the octave loop and return `total / maxValue`. -/
def fractalNoise (T : PermTable) (x y : ℚ) (octaves : ℕ) (persistence : ℚ) : ℚ :=
  let s := fractalState T x y persistence octaves
  s.1 / s.2.2.2

lemma fractalState_invariant (T : PermTable) (x y p : ℚ) (hp : 0 ≤ p) (n : ℕ) :
    |(fractalState T x y p n).1| ≤ (fractalState T x y p n).2.2.2 ∧
      (fractalState T x y p n).2.2.1 = p ^ n ∧
      (fractalState T x y p n).2.2.2 = ∑ i ∈ Finset.range n, p ^ i := by
  induction n with
  | zero => simp [fractalState]
  | succ n ih =>
    obtain ⟨htot, hamp, hmax⟩ := ih
    have hampnn : 0 ≤ (fractalState T x y p n).2.2.1 := by
      rw [hamp]; positivity
    have hnoise := noise_abs_le_one T (x * (fractalState T x y p n).2.1)
      (y * (fractalState T x y p n).2.1)
    refine ⟨?_, ?_, ?_⟩
    · show |(fractalState T x y p n).1 + noise T _ _ * (fractalState T x y p n).2.2.1| ≤
        (fractalState T x y p n).2.2.2 + (fractalState T x y p n).2.2.1
      have habs : |noise T (x * (fractalState T x y p n).2.1) (y * (fractalState T x y p n).2.1) *
          (fractalState T x y p n).2.2.1| ≤ (fractalState T x y p n).2.2.1 := by
        rw [abs_mul, abs_of_nonneg hampnn]
        calc |noise T _ _| * (fractalState T x y p n).2.2.1
            ≤ 1 * (fractalState T x y p n).2.2.1 :=
              mul_le_mul_of_nonneg_right hnoise hampnn
          _ = (fractalState T x y p n).2.2.1 := one_mul _
      calc |(fractalState T x y p n).1 + _| ≤ |(fractalState T x y p n).1| + _ := abs_add _ _
        _ ≤ (fractalState T x y p n).2.2.2 + (fractalState T x y p n).2.2.1 :=
            add_le_add htot habs
    · show (fractalState T x y p n).2.2.1 * p = p ^ (n + 1)
      rw [hamp, pow_succ]
    · show (fractalState T x y p n).2.2.2 + (fractalState T x y p n).2.2.1 =
        ∑ i ∈ Finset.range (n + 1), p ^ i
      rw [hmax, hamp, Finset.sum_range_succ]

/-! ## Environment (js/modules/Environment.js) -/

structure Vec3 where
  x : ℚ
  y : ℚ
  z : ℚ
deriving DecidableEq, Repr

/-- Terrain section of Environment.config (defaults: size 200, segments 64,
heightVariation 8, noiseScale 0.05). -/
structure TerrainConfig where
  size : ℚ
  segments : ℕ
  heightVariation : ℚ
  noiseScale : ℚ
deriving DecidableEq, Repr

/-- The repository default terrain configuration. -/
def defaultTerrainConfig : TerrainConfig :=
  ⟨200, 64, 8, 1 / 20⟩

/-- The three-octave height formula shared verbatim by
Environment.generateTerrain and Environment.getTerrainHeightAt:
`noise(x*s, z*s)*hv + noise(x*2s, z*2s)*hv*0.5 + noise(x*4s, z*4s)*hv*0.25`. -/
def terrainHeight (T : PermTable) (cfg : TerrainConfig) (x z : ℚ) : ℚ :=
  noise T (x * cfg.noiseScale) (z * cfg.noiseScale) * cfg.heightVariation
    + noise T (x * cfg.noiseScale * 2) (z * cfg.noiseScale * 2) * cfg.heightVariation * (1 / 2)
    + noise T (x * cfg.noiseScale * 4) (z * cfg.noiseScale * 4) * cfg.heightVariation * (1 / 4)

/-- Environment.getTerrainHeightAt: returns 0 while `this.terrain` is null,
otherwise the shared height formula. -/
def getTerrainHeightAt (T : PermTable) (cfg : TerrainConfig)
    (terrainExists : Bool) (x z : ℚ) : ℚ :=
  if terrainExists then terrainHeight T cfg x z else 0

/-- Vertex grid of THREE.PlaneGeometry(width, height, gridX, gridY): row
`iy`, column `ix` holds `(ix*segW - width/2, -(iy*segH - height/2), 0)`.
The geometry lies in the XY plane, so every vertex has `z = 0`. -/
def planeVertices (width height : ℚ) (gridX gridY : ℕ) : List Vec3 :=
  (List.range (gridY + 1)).flatMap fun (iy : ℕ) =>
    (List.range (gridX + 1)).map fun (ix : ℕ) =>
      ⟨(ix : ℚ) * (width / (gridX : ℚ)) - width / 2,
        -((iy : ℚ) * (height / (gridY : ℚ)) - height / 2), 0⟩

/-- Environment.generateTerrain: for each vertex the loop reads `x` and `z`
from the position buffer, computes the three-octave height and stores it in
the y slot.  Only the y component is written, so the in-place loop is the
per-vertex map below. -/
def generateTerrain (T : PermTable) (cfg : TerrainConfig) : List Vec3 :=
  (planeVertices cfg.size cfg.size cfg.segments cfg.segments).map fun v =>
    ⟨v.x, terrainHeight T cfg v.x v.z, v.z⟩

lemma length_flatMap_const {α β : Type} (l : List α) (f : α → List β) (c : ℕ)
    (h : ∀ a ∈ l, (f a).length = c) : (l.flatMap f).length = l.length * c := by
  induction l with
  | nil => simp
  | cons a t ih =>
    rw [List.flatMap_cons, List.length_append, h a (List.mem_cons_self a t),
      ih (fun b hb => h b (List.mem_cons_of_mem a hb)), List.length_cons]
    ring

lemma planeVertices_length (width height : ℚ) (gridX gridY : ℕ) :
    (planeVertices width height gridX gridY).length = (gridY + 1) * (gridX + 1) := by
  unfold planeVertices
  have hlen : ∀ iy ∈ List.range (gridY + 1),
      ((List.range (gridX + 1)).map fun (ix : ℕ) =>
        (⟨(ix : ℚ) * (width / (gridX : ℚ)) - width / 2,
          -((iy : ℚ) * (height / (gridY : ℚ)) - height / 2), 0⟩ : Vec3)).length
        = gridX + 1 := by
    intro iy _
    rw [List.length_map, List.length_range]
  rw [length_flatMap_const _ _ (gridX + 1) hlen, List.length_range]

/-! ## Claim theorems C1, C6, C7, C10 -/

/-- C1: for a terrain generated with size `s` and a positive segment count
`n`, the produced vertex count equals `(n+1)^2`, and every generated
vertex has its stored height (the y slot) equal to an independent call of
`getTerrainHeightAt` at the stored `(x, z)` coordinates of that vertex. -/
theorem generateTerrain_vertex_spec (T : PermTable) (cfg : TerrainConfig)
    (_hseg : 0 < cfg.segments) :
    (generateTerrain T cfg).length = (cfg.segments + 1) ^ 2 ∧
      ∀ v ∈ generateTerrain T cfg, v.y = getTerrainHeightAt T cfg true v.x v.z := by
  constructor
  · unfold generateTerrain
    rw [List.length_map, planeVertices_length]
    ring
  · intro v hv
    unfold generateTerrain at hv
    rw [List.mem_map] at hv
    obtain ⟨w, _, rfl⟩ := hv
    simp [getTerrainHeightAt]

/-- Witness for C1 at a concrete configuration (size 2, 1 segment,
height variation 8, noise scale 0). -/
theorem generateTerrain_vertex_spec_witness :
    (generateTerrain idTable ⟨2, 1, 8, 0⟩).length = ((1 : ℕ) + 1) ^ 2 ∧
      ∀ v ∈ generateTerrain idTable ⟨2, 1, 8, 0⟩,
        v.y = getTerrainHeightAt idTable ⟨2, 1, 8, 0⟩ true v.x v.z :=
  generateTerrain_vertex_spec idTable ⟨2, 1, 8, 0⟩ (by decide)

/-- C7: for every permutation table (in particular every valid one) and
all rational inputs, 2D Perlin noise lies within `[-1, 1]` — with no
overshoot at all in exact arithmetic. -/
theorem noise_within_unit_interval (T : PermTable) (x y : ℚ) :
    -1 ≤ noise T x y ∧ noise T x y ≤ 1 :=
  abs_le.mp (noise_abs_le_one T x y)

/-- C6: `fractalNoise` normalizes the octave sum by the sum of the octave
amplitudes (the geometric series of the persistence), so for at least one
octave and persistence in `(0, 1]` the result stays within `[-1, 1]`. -/
theorem fractalNoise_normalized (T : PermTable) (x y : ℚ) (octaves : ℕ) (p : ℚ)
    (hoct : 1 ≤ octaves) (hp0 : 0 < p) (_hp1 : p ≤ 1) :
    ((fractalState T x y p octaves).2.2.2 = ∑ i ∈ Finset.range octaves, p ^ i) ∧
      -1 ≤ fractalNoise T x y octaves p ∧ fractalNoise T x y octaves p ≤ 1 := by
  obtain ⟨htot, hamp, hmax⟩ := fractalState_invariant T x y p (le_of_lt hp0) octaves
  have hset : (0 : ℕ) ∈ Finset.range octaves := Finset.mem_range.mpr (by omega)
  have hone : (1 : ℚ) ≤ ∑ i ∈ Finset.range octaves, p ^ i := by
    have hterm := Finset.single_le_sum (f := fun i => p ^ i)
      (fun i _ => by positivity) hset
    simpa using hterm
  have hpos : 0 < (fractalState T x y p octaves).2.2.2 := by
    rw [hmax]; linarith
  refine ⟨hmax, ?_⟩
  rw [← abs_le]
  show |(fractalState T x y p octaves).1 / (fractalState T x y p octaves).2.2.2| ≤ 1
  rw [abs_div, abs_of_pos hpos]
  exact (div_le_one hpos).mpr htot

/-- Witness for C6 at four octaves and persistence 1/2. -/
theorem fractalNoise_normalized_witness :
    ((fractalState idTable 0 0 (1 / 2) 4).2.2.2 = ∑ i ∈ Finset.range 4, (1 / 2 : ℚ) ^ i) ∧
      -1 ≤ fractalNoise idTable 0 0 4 (1 / 2) ∧ fractalNoise idTable 0 0 4 (1 / 2) ≤ 1 :=
  fractalNoise_normalized idTable 0 0 4 (1 / 2) (by norm_num) (by norm_num) (by norm_num)

/-- C10: 2D noise vanishes exactly at every integer lattice point (the
fade weights and the corner gradient dot products are all zero there), and
consequently the generated terrain height is exactly 0 at lattice-aligned
coordinates — in particular at the world origin. -/
theorem noise_lattice_zero :
    (∀ (T : PermTable) (a b : ℤ), noise T (a : ℚ) (b : ℚ) = 0) ∧
      ∀ (T : PermTable) (cfg : TerrainConfig) (x z : ℚ),
        (∃ i : ℤ, x * cfg.noiseScale = (i : ℚ)) →
        (∃ j : ℤ, z * cfg.noiseScale = (j : ℚ)) →
        terrainHeight T cfg x z = 0 := by
  refine ⟨noise_int_eq_zero, ?_⟩
  intro T cfg x z hxi hzj
  obtain ⟨i, hi⟩ := hxi
  obtain ⟨j, hj⟩ := hzj
  unfold terrainHeight
  have h1 : noise T (x * cfg.noiseScale) (z * cfg.noiseScale) = 0 := by
    rw [hi, hj]; exact noise_int_eq_zero T i j
  have h2 : noise T (x * cfg.noiseScale * 2) (z * cfg.noiseScale * 2) = 0 := by
    have e1 : x * cfg.noiseScale * 2 = ((2 * i : ℤ) : ℚ) := by push_cast; linarith
    have e2 : z * cfg.noiseScale * 2 = ((2 * j : ℤ) : ℚ) := by push_cast; linarith
    rw [e1, e2]; exact noise_int_eq_zero T _ _
  have h4 : noise T (x * cfg.noiseScale * 4) (z * cfg.noiseScale * 4) = 0 := by
    have e1 : x * cfg.noiseScale * 4 = ((4 * i : ℤ) : ℚ) := by push_cast; linarith
    have e2 : z * cfg.noiseScale * 4 = ((4 * j : ℤ) : ℚ) := by push_cast; linarith
    rw [e1, e2]; exact noise_int_eq_zero T _ _
  rw [h1, h2, h4]
  ring

/-- Witness for C10: the terrain height at the world origin is 0 for the
default configuration. -/
theorem noise_lattice_zero_witness :
    terrainHeight idTable defaultTerrainConfig 0 0 = 0 :=
  noise_lattice_zero.2 idTable defaultTerrainConfig 0 0
    ⟨0, by norm_num⟩ ⟨0, by norm_num⟩

/-! ## Tree placement (Environment.placeTrees)

`getRandomTerrainPosition` draws `Math.cos(angle)*distance` and
`Math.sin(angle)*distance` from `Math.random()`; the placement logic never
inspects how a candidate was produced, so `placeTrees` is parameterized by
the candidate stream `rand : ℕ → Vec3` (one entry per call of
`getRandomTerrainPosition`).  `isValidTreePosition` compares
`position.distanceTo(existingPos) < minDistance`; the decidable rational
test below is proved equivalent to the `Real.sqrt` comparison in
`distanceToLt_iff_sqrt`. -/

/-- Squared THREE.Vector3 distance between two positions. -/
def sqDist (p q : Vec3) : ℚ :=
  (p.x - q.x) ^ 2 + (p.y - q.y) ^ 2 + (p.z - q.z) ^ 2

/-- The comparison `position.distanceTo(existingPos) < minDistance`,
expressed without the square root (see `distanceToLt_iff_sqrt`). -/
def distanceToLt (p q : Vec3) (m : ℚ) : Bool :=
  decide (0 < m ∧ sqDist p q < m ^ 2)

/-- Environment.isValidTreePosition: a candidate is valid when no existing
position is closer than `minDistance`. -/
def isValidTreePosition (pos : Vec3) (existing : List Vec3) (minD : ℚ) : Bool :=
  existing.all fun q => !(distanceToLt pos q minD)

lemma sqDist_nonneg (p q : Vec3) : 0 ≤ sqDist p q := by
  unfold sqDist
  positivity

lemma sqDist_comm (p q : Vec3) : sqDist p q = sqDist q p := by
  unfold sqDist
  ring

/-- The rational test agrees with the square-root comparison performed by
`THREE.Vector3.distanceTo`. -/
lemma distanceToLt_iff_sqrt (p q : Vec3) (m : ℚ) :
    distanceToLt p q m = true ↔ Real.sqrt ((sqDist p q : ℚ) : ℝ) < (m : ℝ) := by
  unfold distanceToLt
  rw [decide_eq_true_eq]
  constructor
  · rintro ⟨hm, hlt⟩
    have hmr : (0 : ℝ) < (m : ℚ) := by exact_mod_cast hm
    rw [Real.sqrt_lt' hmr]
    exact_mod_cast hlt
  · intro h
    have hmr : (0 : ℝ) < (m : ℚ) := lt_of_le_of_lt (Real.sqrt_nonneg _) h
    have hm : 0 < m := by exact_mod_cast hmr
    refine ⟨hm, ?_⟩
    rw [Real.sqrt_lt' hmr] at h
    exact_mod_cast h

/-- The inner do-while of Environment.placeTrees: draw a candidate,
increment `attempts`, loop while `attempts < 50` and the candidate is
invalid.  Returns the last candidate, the final attempt count and the next
unused index of the random stream. -/
def attemptLoop (rand : ℕ → Vec3) (minD : ℚ) (placed : List Vec3)
    (k attempts : ℕ) : Vec3 × ℕ × ℕ :=
  let pos := rand k
  let att := attempts + 1
  if h : att < 50 ∧ isValidTreePosition pos placed minD = false then
    attemptLoop rand minD placed (k + 1) att
  else
    (pos, att, k + 1)
termination_by 50 - attempts
decreasing_by
  obtain ⟨h1, _⟩ := h
  omega

/-- The outer for-loop of Environment.placeTrees: one `attemptLoop` round
per requested tree; a round whose attempt count reached 50 is skipped
(`continue`), otherwise the candidate is appended (`createTree` always
returns a group, so the `if (tree)` test always passes). -/
def placeTreesAux (rand : ℕ → Vec3) (minD : ℚ) :
    ℕ → ℕ → List Vec3 → List Vec3 × ℕ
  | 0, k, placed => (placed, k)
  | n + 1, k, placed =>
    let r := attemptLoop rand minD placed k 0
    if 50 ≤ r.2.1 then placeTreesAux rand minD n r.2.2 placed
    else placeTreesAux rand minD n r.2.2 (placed ++ [r.1])

/-- Environment.placeTrees for a given tree count and minimum distance. -/
def placeTrees (rand : ℕ → Vec3) (count : ℕ) (minD : ℚ) : List Vec3 × ℕ :=
  placeTreesAux rand minD count 0 []

/-- Positions accepted by the placement are far apart (or the minimum
distance is non-positive, in which case every candidate is valid). -/
def farApart (minD : ℚ) (p q : Vec3) : Prop :=
  minD ≤ 0 ∨ minD ^ 2 ≤ sqDist p q

lemma isValid_farApart {pos : Vec3} {placed : List Vec3} {minD : ℚ}
    (h : isValidTreePosition pos placed minD = true) :
    ∀ q ∈ placed, farApart minD q pos := by
  intro q hq
  unfold isValidTreePosition at h
  rw [List.all_eq_true] at h
  have hbool := h q hq
  rw [Bool.not_eq_true'] at hbool
  unfold distanceToLt at hbool
  rw [decide_eq_false_iff_not] at hbool
  unfold farApart
  rw [sqDist_comm]
  by_cases hm : 0 < minD
  · right
    by_contra hlt
    exact hbool ⟨hm, by linarith⟩
  · left
    linarith [not_lt.mp hm]

lemma attemptLoop_spec (rand : ℕ → Vec3) (minD : ℚ) (placed : List Vec3) :
    ∀ fuel k attempts, 50 ≤ fuel + attempts →
      (∃ j, (attemptLoop rand minD placed k attempts).1 = rand j) ∧
        (attemptLoop rand minD placed k attempts).2.2 + attempts
          = k + (attemptLoop rand minD placed k attempts).2.1 ∧
        attempts < (attemptLoop rand minD placed k attempts).2.1 ∧
        (attempts < 50 → (attemptLoop rand minD placed k attempts).2.1 ≤ 50) ∧
        ((attemptLoop rand minD placed k attempts).2.1 < 50 →
          isValidTreePosition (attemptLoop rand minD placed k attempts).1 placed minD = true) := by
  intro fuel
  induction fuel with
  | zero =>
    intro k attempts h50
    rw [attemptLoop]
    split
    · next h => omega
    · next h =>
      refine ⟨⟨k, rfl⟩, ?_, ?_, ?_, ?_⟩
      · show k + 1 + attempts = k + (attempts + 1)
        omega
      · show attempts < attempts + 1
        omega
      · intro hlt50
        show attempts + 1 ≤ 50
        omega
      · intro hlt
        have hlt2 : attempts + 1 < 50 := hlt
        rcases Bool.eq_false_or_eq_true (isValidTreePosition (rand k) placed minD) with hv | hv
        · exact hv
        · exact absurd ⟨hlt2, hv⟩ h
  | succ n ih =>
    intro k attempts h50
    rw [attemptLoop]
    split
    · next h =>
      have hrec := ih (k + 1) (attempts + 1) (by omega)
      obtain ⟨hj, hk, hatt, hcap, hvalid⟩ := hrec
      refine ⟨hj, by omega, by omega, ?_, hvalid⟩
      intro _
      exact hcap (by omega)
    · next h =>
      refine ⟨⟨k, rfl⟩, ?_, ?_, ?_, ?_⟩
      · show k + 1 + attempts = k + (attempts + 1)
        omega
      · show attempts < attempts + 1
        omega
      · intro hlt50
        show attempts + 1 ≤ 50
        omega
      · intro hlt
        have hlt2 : attempts + 1 < 50 := hlt
        rcases Bool.eq_false_or_eq_true (isValidTreePosition (rand k) placed minD) with hv | hv
        · exact hv
        · exact absurd ⟨hlt2, hv⟩ h

lemma placeTreesAux_spec (rand : ℕ → Vec3) (minD : ℚ) :
    ∀ n k placed,
      (placeTreesAux rand minD n k placed).1.length ≤ placed.length + n ∧
        (placeTreesAux rand minD n k placed).2 ≤ k + n * 50 ∧
        (placed.Pairwise (farApart minD) →
          (placeTreesAux rand minD n k placed).1.Pairwise (farApart minD)) ∧
        ∀ v ∈ (placeTreesAux rand minD n k placed).1,
          v ∈ placed ∨ ∃ j, v = rand j := by
  intro n
  induction n with
  | zero =>
    intro k placed
    refine ⟨by simp [placeTreesAux], by simp [placeTreesAux], ?_, ?_⟩
    · intro hp
      simpa [placeTreesAux] using hp
    · intro v hv
      rw [placeTreesAux] at hv
      exact Or.inl hv
  | succ n ih =>
    intro k placed
    obtain ⟨hjr, hkr, hattr, hcapr, hvalidr⟩ :=
      attemptLoop_spec rand minD placed 50 k 0 (by omega)
    rw [placeTreesAux]
    split
    · next hskip =>
      obtain ⟨hlen, hk, hpair, hmem⟩ := ih (attemptLoop rand minD placed k 0).2.2 placed
      refine ⟨by omega, by omega, hpair, hmem⟩
    · next hskip =>
      have hvalid : isValidTreePosition (attemptLoop rand minD placed k 0).1 placed minD = true :=
        hvalidr (by omega)
      obtain ⟨hlen, hk, hpair, hmem⟩ :=
        ih (attemptLoop rand minD placed k 0).2.2 (placed ++ [(attemptLoop rand minD placed k 0).1])
      refine ⟨by simp at hlen ⊢; omega, by omega, ?_, ?_⟩
      · intro hp
        apply hpair
        rw [List.pairwise_append]
        refine ⟨hp, List.pairwise_singleton _ _, ?_⟩
        intro a ha b hb
        rw [List.mem_singleton] at hb
        subst hb
        exact isValid_farApart hvalid a ha
      · intro v hv
        rcases hmem v hv with hin | hnew
        · rw [List.mem_append] at hin
          rcases hin with hin | hin
          · exact Or.inl hin
          · rw [List.mem_singleton] at hin
            subst hin
            exact Or.inr hjr
        · exact Or.inr hnew

/-- C2: every placement run accepts at most `count` positions, and all
pairs of distinct accepted positions are at Euclidean distance at least
`minDistance` (the distance is symmetric, so the ordered `Pairwise`
statement covers every unordered pair). -/
theorem placeTrees_count_and_spacing (rand : ℕ → Vec3) (count : ℕ) (minD : ℚ) :
    (placeTrees rand count minD).1.length ≤ count ∧
      (placeTrees rand count minD).1.Pairwise
        (fun p q => (minD : ℝ) ≤ Real.sqrt ((sqDist p q : ℚ) : ℝ)) ∧
      ∀ p q : Vec3, sqDist p q = sqDist q p := by
  obtain ⟨hlen, hk, hpair, hmem⟩ := placeTreesAux_spec rand minD count 0 []
  refine ⟨by simpa using hlen, ?_, sqDist_comm⟩
  have hp := hpair List.Pairwise.nil
  refine hp.imp ?_
  intro p q hfar
  rcases hfar with hm | hsq
  · have hm0 : (minD : ℝ) ≤ 0 := by exact_mod_cast hm
    exact le_trans hm0 (Real.sqrt_nonneg _)
  · apply Real.le_sqrt_of_sq_le
    exact_mod_cast hsq

/-! ### Geometric infeasibility (C5)

Ten points, pairwise at distance at least 20, cannot fit in the disk of
radius 15: cover the enclosing square `[-15, 15] × [-15, 15]` by a 3 × 3
grid of side-10 cells (diameter `10·sqrt 2 < 20`) and apply the
pigeonhole principle. -/

/-- Index (0, 1 or 2) of the side-10 covering cell containing `t`. -/
def cellOf (t : ℚ) : ℕ :=
  min 2 (Int.toNat ⌊(t + 15) / 10⌋)

lemma cellOf_lt (t : ℚ) : cellOf t < 3 := by
  unfold cellOf
  omega

lemma cellOf_bounds {t : ℚ} (h0 : -15 ≤ t) (h1 : t ≤ 15) :
    10 * ((cellOf t : ℕ) : ℚ) - 15 ≤ t ∧ t ≤ 10 * ((cellOf t : ℕ) : ℚ) - 5 := by
  have hle := Int.floor_le ((t + 15) / 10)
  have hgt := Int.lt_floor_add_one ((t + 15) / 10)
  have hnn : (0 : ℤ) ≤ ⌊(t + 15) / 10⌋ :=
    Int.floor_nonneg.mpr (div_nonneg (by linarith) (by norm_num))
  have hub : ⌊(t + 15) / 10⌋ ≤ 3 := by
    have h3 : (t + 15) / 10 ≤ ((3 : ℤ) : ℚ) := by push_cast; linarith
    simpa using Int.floor_mono h3
  unfold cellOf
  rcases lt_or_ge ⌊(t + 15) / 10⌋ 3 with hlt | hge
  · have hmin : min 2 (Int.toNat ⌊(t + 15) / 10⌋) = Int.toNat ⌊(t + 15) / 10⌋ := by omega
    rw [hmin]
    have hcast : ((Int.toNat ⌊(t + 15) / 10⌋ : ℕ) : ℚ) = ((⌊(t + 15) / 10⌋ : ℤ) : ℚ) := by
      exact_mod_cast congrArg (fun z : ℤ => (z : ℚ)) (Int.toNat_of_nonneg hnn)
    rw [hcast]
    constructor <;> linarith
  · have heq : ⌊(t + 15) / 10⌋ = 3 := le_antisymm hub hge
    have h15 : (15 : ℚ) ≤ t := by
      rw [heq] at hle
      push_cast at hle
      linarith
    have hmin : min 2 (Int.toNat (3 : ℤ)) = 2 := by norm_num
    rw [heq, hmin]
    push_cast
    constructor <;> linarith

lemma cellOf_close {a b : ℚ} (ha0 : -15 ≤ a) (ha1 : a ≤ 15) (hb0 : -15 ≤ b) (hb1 : b ≤ 15)
    (h : cellOf a = cellOf b) : (a - b) ^ 2 ≤ 100 := by
  obtain ⟨hal, hau⟩ := cellOf_bounds ha0 ha1
  obtain ⟨hbl, hbu⟩ := cellOf_bounds hb0 hb1
  rw [h] at hal hau
  have h1 : a - b ≤ 10 := by linarith
  have h2 : b - a ≤ 10 := by linarith
  nlinarith [mul_nonneg (by linarith : (0 : ℚ) ≤ 10 - (a - b))
    (by linarith : (0 : ℚ) ≤ 10 + (a - b))]

lemma square_le_of_sum_of_squares {x z : ℚ} (h : x ^ 2 + z ^ 2 ≤ 225) :
    -15 ≤ x ∧ x ≤ 15 ∧ -15 ≤ z ∧ z ≤ 15 := by
  have hx : x ^ 2 ≤ 225 := by nlinarith [sq_nonneg z]
  have hz : z ^ 2 ≤ 225 := by nlinarith [sq_nonneg x]
  refine ⟨by nlinarith, by nlinarith, by nlinarith, by nlinarith⟩

/-- At most nine planar points of the closed disk of radius 15 can be
pairwise at squared distance at least 400. -/
lemma no_ten_far_points (l : List Vec3)
    (hel : ∀ v ∈ l, v.y = 0 ∧ v.x ^ 2 + v.z ^ 2 ≤ 225)
    (hp : l.Pairwise (farApart 20)) : l.length < 10 := by
  by_contra hge
  push_neg at hge
  have hsq : ∀ i j : Fin l.length, i < j → 400 ≤ sqDist (l.get i) (l.get j) := by
    intro i j hij
    rcases List.pairwise_iff_get.mp hp i j hij with hm | hs
    · norm_num at hm
    · rw [show ((20 : ℚ) ^ 2) = 400 by norm_num] at hs
      exact hs
  have hcard : Fintype.card (Fin 3 × Fin 3) < Fintype.card (Fin l.length) := by
    simp only [Fintype.card_prod, Fintype.card_fin]
    omega
  obtain ⟨i, j, hne, hfeq⟩ := Fintype.exists_ne_map_eq_of_card_lt
    (fun i : Fin l.length =>
      ((⟨cellOf (l.get i).x, cellOf_lt _⟩ : Fin 3),
        (⟨cellOf (l.get i).z, cellOf_lt _⟩ : Fin 3)))
    hcard
  have hcx : cellOf (l.get i).x = cellOf (l.get j).x := by
    have := congrArg Prod.fst hfeq
    simpa [Fin.ext_iff] using this
  have hcz : cellOf (l.get i).z = cellOf (l.get j).z := by
    have := congrArg Prod.snd hfeq
    simpa [Fin.ext_iff] using this
  obtain ⟨hyi, hbi⟩ := hel _ (List.get_mem l i.1 i.2)
  obtain ⟨hyj, hbj⟩ := hel _ (List.get_mem l j.1 j.2)
  obtain ⟨hxi0, hxi1, hzi0, hzi1⟩ := square_le_of_sum_of_squares hbi
  obtain ⟨hxj0, hxj1, hzj0, hzj1⟩ := square_le_of_sum_of_squares hbj
  have hdx := cellOf_close hxi0 hxi1 hxj0 hxj1 hcx
  have hdz := cellOf_close hzi0 hzi1 hzj0 hzj1 hcz
  have hfar : 400 ≤ sqDist (l.get i) (l.get j) := by
    rcases hne.lt_or_lt with hij | hij
    · exact hsq i j hij
    · rw [sqDist_comm]
      exact hsq j i hij
  unfold sqDist at hfar
  rw [hyi, hyj] at hfar
  nlinarith [hfar, hdx, hdz]

/-- C5: requesting 10 trees with minimum distance 20 from candidates drawn
in the disk of radius 15 (as `getRandomTerrainPosition(15)` produces:
planar positions with `y = 0` and norm at most 15) terminates within
`count * 50 = 500` candidate draws and accepts strictly fewer than the 10
requested trees; the placement function is total, so generation continues
past it without raising an error. -/
theorem placeTrees_infeasible (rand : ℕ → Vec3)
    (hdisk : ∀ n, (rand n).y = 0 ∧ (rand n).x ^ 2 + (rand n).z ^ 2 ≤ 225) :
    (placeTrees rand 10 20).1.length < 10 ∧ (placeTrees rand 10 20).2 ≤ 10 * 50 := by
  obtain ⟨hlen, hk, hpair, hmem⟩ := placeTreesAux_spec rand 20 10 0 []
  refine ⟨?_, by simpa using hk⟩
  have hel : ∀ v ∈ (placeTrees rand 10 20).1, v.y = 0 ∧ v.x ^ 2 + v.z ^ 2 ≤ 225 := by
    intro v hv
    rcases hmem v hv with hin | ⟨j, rfl⟩
    · simp at hin
    · exact hdisk j
  exact no_ten_far_points _ hel (hpair List.Pairwise.nil)

/-- Witness for C5: with every candidate drawn at the origin, one tree is
accepted, the other nine rounds exhaust their 50 attempts, and the run
stays within the draw budget. -/
theorem placeTrees_infeasible_witness :
    (placeTrees (fun _ => (⟨0, 0, 0⟩ : Vec3)) 10 20).1.length < 10 ∧
      (placeTrees (fun _ => (⟨0, 0, 0⟩ : Vec3)) 10 20).2 ≤ 10 * 50 :=
  placeTrees_infeasible _ (fun _ => ⟨rfl, by norm_num⟩)

/-! ## Instance positions (C4)

The y coordinate of each created instance, as assigned by
Environment.createTree, createGrassPatch, createFlower and createRock. -/

/-- Environment.getRandomTerrainPosition: a planar position
`(cos(angle)*distance, 0, sin(angle)*distance)`; the cosine and sine of
the random angle are supplied as oracle values. -/
def getRandomTerrainPosition (cosAngle sinAngle distance : ℚ) : Vec3 :=
  ⟨cosAngle * distance, 0, sinAngle * distance⟩

/-- Environment.createTree: `treeGroup.position.copy(position)` — the tree
instance keeps the placement position unchanged; its y slot is never
resolved through the height field. -/
def createTreePosition (position : Vec3) : Vec3 :=
  position

/-- One grass blade of Environment.createGrassPatch: x and z are jittered
inside the patch (`patchSize = 2`, `rx`, `rz` the Math.random draws) and y
is `getTerrainHeightAt(x, z)`. -/
def grassBladePosition (T : PermTable) (cfg : TerrainConfig) (terrainExists : Bool)
    (position : Vec3) (rx rz : ℚ) : Vec3 :=
  let x := position.x + (rx - 1 / 2) * 2
  let z := position.z + (rz - 1 / 2) * 2
  ⟨x, getTerrainHeightAt T cfg terrainExists x z, z⟩

/-- Environment.createFlower: the position is copied, then
`flower.position.y = getTerrainHeightAt(x, z) + 0.1`. -/
def createFlowerPosition (T : PermTable) (cfg : TerrainConfig) (terrainExists : Bool)
    (position : Vec3) : Vec3 :=
  ⟨position.x,
    getTerrainHeightAt T cfg terrainExists position.x position.z + 1 / 10,
    position.z⟩

/-- Environment.createRock: the position is copied, then
`rock.position.y = getTerrainHeightAt(x, z)`. -/
def createRockPosition (T : PermTable) (cfg : TerrainConfig) (terrainExists : Bool)
    (position : Vec3) : Vec3 :=
  ⟨position.x,
    getTerrainHeightAt T cfg terrainExists position.x position.z,
    position.z⟩

/-- C4 counterexample: the flower created at the origin stores
`y = terrain height + 0.1`, which differs from the terrain height at its
`(x, z)` — so not every placed instance has its y equal to the height
field at its position. -/
theorem flower_y_off_terrain :
    (createFlowerPosition idTable defaultTerrainConfig true ⟨0, 0, 0⟩).y
      ≠ getTerrainHeightAt idTable defaultTerrainConfig true
          (createFlowerPosition idTable defaultTerrainConfig true ⟨0, 0, 0⟩).x
          (createFlowerPosition idTable defaultTerrainConfig true ⟨0, 0, 0⟩).z := by
  show getTerrainHeightAt idTable defaultTerrainConfig true 0 0 + 1 / 10
      ≠ getTerrainHeightAt idTable defaultTerrainConfig true 0 0
  have h0 : getTerrainHeightAt idTable defaultTerrainConfig true 0 0 = 0 := by
    simp [getTerrainHeightAt, terrainHeight, noise_zero_zero]
  rw [h0]
  norm_num

/-- C4 amended: grass blades and rocks have y exactly equal to the terrain
height at their `(x, z)`; flowers are offset exactly `0.1` above it; and
trees keep the y of the planar placement position, which
`getRandomTerrainPosition` always sets to `0`. -/
theorem instance_heights_spec (T : PermTable) (cfg : TerrainConfig) (te : Bool)
    (position : Vec3) (rx rz cosAngle sinAngle distance : ℚ) :
    ((grassBladePosition T cfg te position rx rz).y
        = getTerrainHeightAt T cfg te (grassBladePosition T cfg te position rx rz).x
            (grassBladePosition T cfg te position rx rz).z) ∧
      ((createRockPosition T cfg te position).y
        = getTerrainHeightAt T cfg te (createRockPosition T cfg te position).x
            (createRockPosition T cfg te position).z) ∧
      ((createFlowerPosition T cfg te position).y
        = getTerrainHeightAt T cfg te (createFlowerPosition T cfg te position).x
            (createFlowerPosition T cfg te position).z + 1 / 10) ∧
      (createTreePosition (getRandomTerrainPosition cosAngle sinAngle distance)).y = 0 :=
  ⟨rfl, rfl, rfl, rfl⟩

/-! ## Lighting (js/modules/Lighting.js)

`calculateLightingForTime` holds five keyframes (hours 6, 12, 14, 18, 22).
The bracket search initializes `beforeTime` to the first key and
`afterTime` to the last key, scans the sorted keys for the first interval
containing the hour and breaks; `findBracket` below unrolls that loop.
Colors pass through THREE.Color: `setHex` splits the hex value into
r, g, b in `[0,1]` (byte / 255), lerp interpolates componentwise, and
`getHex` rounds each channel (JS Math.round, halves toward positive
infinity) after clamping to `[0,255]`. -/

structure LightingData where
  sunColor : ℕ
  sunIntensity : ℚ
  ambientColor : ℕ
  ambientIntensity : ℚ
  skyColor : ℕ
  groundColor : ℕ
  hemisphereIntensity : ℚ
deriving DecidableEq, Repr

/-- The 6:00 (dawn) keyframe. -/
def dawnData : LightingData :=
  ⟨0xFFB366, 3 / 10, 0x66B3FF, 2 / 10, 0xFFB366, 0x8B4513, 3 / 10⟩

/-- The 12:00 (noon) keyframe. -/
def noonData : LightingData :=
  ⟨0xFFFFFF, 1, 0x87CEEB, 3 / 10, 0x87CEEB, 0x8FBC8F, 4 / 10⟩

/-- The 14:00 (afternoon) keyframe. -/
def afternoonData : LightingData :=
  ⟨0xFFF8DC, 9 / 10, 0x87CEEB, 3 / 10, 0x87CEEB, 0x9ACD32, 4 / 10⟩

/-- The 18:00 (sunset) keyframe. -/
def sunsetData : LightingData :=
  ⟨0xFF6347, 4 / 10, 0xFF6347, 2 / 10, 0xFF6347, 0x8B4513, 3 / 10⟩

/-- The 22:00 (night) keyframe. -/
def nightData : LightingData :=
  ⟨0x4169E1, 1 / 10, 0x191970, 1 / 10, 0x191970, 0x2F4F4F, 2 / 10⟩

/-- The `timeData` lookup, defined on the five keyframe hours. -/
def timeData (h : ℚ) : LightingData :=
  if h = 6 then dawnData
  else if h = 12 then noonData
  else if h = 14 then afternoonData
  else if h = 18 then sunsetData
  else nightData

/-- The bracket-search loop of calculateLightingForTime, unrolled: the
first interval `[times[i], times[i+1]]` containing the hour wins (break);
when none matches (hour below 6 or above 22) the initial defaults
`(times[0], times[4]) = (6, 22)` remain. -/
def findBracket (hour : ℚ) : ℚ × ℚ :=
  if 6 ≤ hour ∧ hour ≤ 12 then (6, 12)
  else if 12 ≤ hour ∧ hour ≤ 14 then (12, 14)
  else if 14 ≤ hour ∧ hour ≤ 18 then (14, 18)
  else if 18 ≤ hour ∧ hour ≤ 22 then (18, 22)
  else (6, 22)

structure ColorRGB where
  r : ℚ
  g : ℚ
  b : ℚ
deriving DecidableEq, Repr

/-- THREE.Color.setHex: split a hex color into three channels scaled to `[0,1]`. -/
def setHex (hex : ℕ) : ColorRGB :=
  ⟨((hex / 65536 % 256 : ℕ) : ℚ) / 255,
    ((hex / 256 % 256 : ℕ) : ℚ) / 255,
    ((hex % 256 : ℕ) : ℚ) / 255⟩

/-- THREE.Color.lerp: componentwise `c += (c2 - c) * alpha`. -/
def colorLerp (c1 c2 : ColorRGB) (t : ℚ) : ColorRGB :=
  ⟨lerp c1.r c2.r t, lerp c1.g c2.g t, lerp c1.b c2.b t⟩

/-- JS Math.round: halves round toward positive infinity. -/
def jsRound (q : ℚ) : ℤ :=
  ⌊q + 1 / 2⌋

/-- One channel of THREE.Color.getHex: scale to `[0,255]`, clamp, round. -/
def hexByte (c : ℚ) : ℕ :=
  (jsRound (max 0 (min 255 (c * 255)))).toNat

/-- THREE.Color.getHex: reassemble the three rounded channels. -/
def getHex (c : ColorRGB) : ℕ :=
  hexByte c.r * 65536 + hexByte c.g * 256 + hexByte c.b

/-- Lighting.interpolateColor: hex in, lerp in color space, hex out. -/
def interpolateColor (c1 c2 : ℕ) (factor : ℚ) : ℕ :=
  getHex (colorLerp (setHex c1) (setHex c2) factor)

/-- Lighting.calculateLightingForTime: find the bracketing keyframes,
compute the interpolation factor, clamp it to `[0,1]` and interpolate all
seven fields. -/
def calculateLightingForTime (hour : ℚ) : LightingData :=
  let beforeTime := (findBracket hour).1
  let afterTime := (findBracket hour).2
  let factor := (hour - beforeTime) / (afterTime - beforeTime)
  let clampedFactor := max 0 (min 1 factor)
  let before := timeData beforeTime
  let after := timeData afterTime
  ⟨interpolateColor before.sunColor after.sunColor clampedFactor,
    lerp before.sunIntensity after.sunIntensity clampedFactor,
    interpolateColor before.ambientColor after.ambientColor clampedFactor,
    lerp before.ambientIntensity after.ambientIntensity clampedFactor,
    interpolateColor before.skyColor after.skyColor clampedFactor,
    interpolateColor before.groundColor after.groundColor clampedFactor,
    lerp before.hemisphereIntensity after.hemisphereIntensity clampedFactor⟩

/-- C3 counterexample: the function does not wrap around at 24.  At hour
23 the code returns the 22:00 keyframe value `sunIntensity = 0.1`, and at
hours 0 and 1 the 6:00 keyframe value `0.3`, while the claimed wraparound
interpolation between the last keyframe (22:00, 0.1) and the first (6:00,
0.3) would give `lerp 0.1 0.3 (1/8) = 0.125` at 23 and
`lerp 0.1 0.3 (3/8) = 0.175` at 1; the one-sided limits 0.1 (hour → 24)
and 0.3 (hour 0) also differ, so the function is discontinuous across the
24 → 0 wraparound. -/
theorem calculateLighting_wraparound_jump :
    (calculateLightingForTime 23).sunIntensity = 1 / 10 ∧
      (calculateLightingForTime 0).sunIntensity = 3 / 10 ∧
      (calculateLightingForTime 1).sunIntensity = 3 / 10 ∧
      lerp (1 / 10 : ℚ) (3 / 10) ((23 - 22) / (24 + 6 - 22)) ≠ 1 / 10 ∧
      lerp (1 / 10 : ℚ) (3 / 10) ((24 + 1 - 22) / (24 + 6 - 22)) ≠ 3 / 10 := by
  refine ⟨?_, ?_, ?_, by norm_num [lerp], by norm_num [lerp]⟩ <;>
    norm_num [calculateLightingForTime, findBracket, timeData, dawnData, nightData,
      lerp, min_def, max_def]

/-- Evaluation of calculateLightingForTime once the bracket is known. -/
lemma calcLighting_of_bracket {hour bt at2 : ℚ} (hbr : findBracket hour = (bt, at2)) :
    calculateLightingForTime hour =
      ⟨interpolateColor (timeData bt).sunColor (timeData at2).sunColor
          (max 0 (min 1 ((hour - bt) / (at2 - bt)))),
        lerp (timeData bt).sunIntensity (timeData at2).sunIntensity
          (max 0 (min 1 ((hour - bt) / (at2 - bt)))),
        interpolateColor (timeData bt).ambientColor (timeData at2).ambientColor
          (max 0 (min 1 ((hour - bt) / (at2 - bt)))),
        lerp (timeData bt).ambientIntensity (timeData at2).ambientIntensity
          (max 0 (min 1 ((hour - bt) / (at2 - bt)))),
        interpolateColor (timeData bt).skyColor (timeData at2).skyColor
          (max 0 (min 1 ((hour - bt) / (at2 - bt)))),
        interpolateColor (timeData bt).groundColor (timeData at2).groundColor
          (max 0 (min 1 ((hour - bt) / (at2 - bt)))),
        lerp (timeData bt).hemisphereIntensity (timeData at2).hemisphereIntensity
          (max 0 (min 1 ((hour - bt) / (at2 - bt))))⟩ := by
  unfold calculateLightingForTime
  rw [hbr]

/-- C3 amended: the day-cycle function does not wrap around at 24.  At
each keyframe hour it returns exactly the stored keyframe values; below
6:00 and above 22:00 the clamped factor makes it constantly equal to the
dawn (6:00) and night (22:00) keyframes respectively; between consecutive
keyframes the scalar sun intensity interpolates linearly — so it is
continuous on `[0, 24)` but jumps across the 24 → 0 wraparound (night
values against dawn values, which differ). -/
theorem calculateLighting_clamped_spec :
    (calculateLightingForTime 6 = dawnData ∧ calculateLightingForTime 12 = noonData ∧
        calculateLightingForTime 14 = afternoonData ∧ calculateLightingForTime 18 = sunsetData ∧
        calculateLightingForTime 22 = nightData) ∧
      (∀ h : ℚ, h ≤ 6 → calculateLightingForTime h = dawnData) ∧
      (∀ h : ℚ, 22 ≤ h → calculateLightingForTime h = nightData) ∧
      (∀ h : ℚ, 6 ≤ h → h ≤ 12 → (calculateLightingForTime h).sunIntensity
          = lerp (3 / 10) 1 ((h - 6) / 6)) ∧
      (∀ h : ℚ, 12 ≤ h → h ≤ 14 → (calculateLightingForTime h).sunIntensity
          = lerp 1 (9 / 10) ((h - 12) / 2)) ∧
      (∀ h : ℚ, 14 ≤ h → h ≤ 18 → (calculateLightingForTime h).sunIntensity
          = lerp (9 / 10) (4 / 10) ((h - 14) / 4)) ∧
      (∀ h : ℚ, 18 ≤ h → h ≤ 22 → (calculateLightingForTime h).sunIntensity
          = lerp (4 / 10) (1 / 10) ((h - 18) / 4)) ∧
      nightData ≠ dawnData := by
  have hk6 : calculateLightingForTime 6 = dawnData := by
    rw [calcLighting_of_bracket (show findBracket 6 = (6, 12) by norm_num [findBracket])]
    norm_num [timeData, dawnData, noonData, interpolateColor, setHex, colorLerp, getHex,
      hexByte, jsRound, lerp, min_def, max_def, Int.toNat_ofNat] <;> decide
  have hk12 : calculateLightingForTime 12 = noonData := by
    rw [calcLighting_of_bracket (show findBracket 12 = (6, 12) by norm_num [findBracket])]
    norm_num [timeData, dawnData, noonData, interpolateColor, setHex, colorLerp, getHex,
      hexByte, jsRound, lerp, min_def, max_def, Int.toNat_ofNat] <;> decide
  have hk14 : calculateLightingForTime 14 = afternoonData := by
    rw [calcLighting_of_bracket (show findBracket 14 = (12, 14) by norm_num [findBracket])]
    norm_num [timeData, noonData, afternoonData, interpolateColor, setHex, colorLerp, getHex,
      hexByte, jsRound, lerp, min_def, max_def, Int.toNat_ofNat] <;> decide
  have hk18 : calculateLightingForTime 18 = sunsetData := by
    rw [calcLighting_of_bracket (show findBracket 18 = (14, 18) by norm_num [findBracket])]
    norm_num [timeData, afternoonData, sunsetData, interpolateColor, setHex, colorLerp, getHex,
      hexByte, jsRound, lerp, min_def, max_def, Int.toNat_ofNat] <;> decide
  have hk22 : calculateLightingForTime 22 = nightData := by
    rw [calcLighting_of_bracket (show findBracket 22 = (18, 22) by norm_num [findBracket])]
    norm_num [timeData, sunsetData, nightData, interpolateColor, setHex, colorLerp, getHex,
      hexByte, jsRound, lerp, min_def, max_def, Int.toNat_ofNat] <;> decide
  refine ⟨⟨hk6, hk12, hk14, hk18, hk22⟩, ?_, ?_, ?_, ?_, ?_, ?_, by decide⟩
  · intro h hle
    rcases eq_or_lt_of_le hle with heq | hlt
    · rw [heq]; exact hk6
    · have hbr : findBracket h = (6, 22) := by
        have h1 : ¬(6 ≤ h ∧ h ≤ 12) := by rintro ⟨ha, _⟩; linarith
        have h2 : ¬(12 ≤ h ∧ h ≤ 14) := by rintro ⟨ha, _⟩; linarith
        have h3 : ¬(14 ≤ h ∧ h ≤ 18) := by rintro ⟨ha, _⟩; linarith
        have h4 : ¬(18 ≤ h ∧ h ≤ 22) := by rintro ⟨ha, _⟩; linarith
        simp [findBracket, h1, h2, h3, h4]
      have hcl : max 0 (min 1 ((h - 6) / ((22 : ℚ) - 6))) = 0 := by
        have hf : (h - 6) / ((22 : ℚ) - 6) ≤ 0 :=
          div_nonpos_iff.mpr (Or.inr ⟨by linarith, by norm_num⟩)
        rw [min_eq_right (le_trans hf zero_le_one), max_eq_left hf]
      rw [calcLighting_of_bracket hbr, hcl]
      norm_num [timeData, dawnData, nightData, interpolateColor, setHex, colorLerp, getHex,
        hexByte, jsRound, lerp, min_def, max_def, Int.toNat_ofNat] <;> decide
  · intro h hle
    rcases eq_or_lt_of_le hle with heq | hlt
    · rw [← heq]; exact hk22
    · have hbr : findBracket h = (6, 22) := by
        have h1 : ¬(6 ≤ h ∧ h ≤ 12) := by rintro ⟨_, ha⟩; linarith
        have h2 : ¬(12 ≤ h ∧ h ≤ 14) := by rintro ⟨_, ha⟩; linarith
        have h3 : ¬(14 ≤ h ∧ h ≤ 18) := by rintro ⟨_, ha⟩; linarith
        have h4 : ¬(18 ≤ h ∧ h ≤ 22) := by rintro ⟨_, ha⟩; linarith
        simp [findBracket, h1, h2, h3, h4]
      have hcl : max 0 (min 1 ((h - 6) / ((22 : ℚ) - 6))) = 1 := by
        have hf : (1 : ℚ) ≤ (h - 6) / ((22 : ℚ) - 6) := by
          rw [le_div_iff₀ (by norm_num : (0 : ℚ) < 22 - 6)]
          linarith
        rw [min_eq_left hf, max_eq_right zero_le_one]
      rw [calcLighting_of_bracket hbr, hcl]
      norm_num [timeData, dawnData, nightData, interpolateColor, setHex, colorLerp, getHex,
        hexByte, jsRound, lerp, min_def, max_def, Int.toNat_ofNat] <;> decide
  · intro h h1 h2
    have hbr : findBracket h = (6, 12) := by
      unfold findBracket
      rw [if_pos ⟨h1, h2⟩]
    have hcl : max 0 (min 1 ((h - 6) / ((12 : ℚ) - 6))) = (h - 6) / ((12 : ℚ) - 6) := by
      have hd : (0 : ℚ) < 12 - 6 := by norm_num
      have hf0 : 0 ≤ (h - 6) / ((12 : ℚ) - 6) := div_nonneg (by linarith) (le_of_lt hd)
      have hf1 : (h - 6) / ((12 : ℚ) - 6) ≤ 1 := by
        rw [div_le_one hd]; linarith
      rw [min_eq_right hf1, max_eq_right hf0]
    rw [calcLighting_of_bracket hbr]
    show lerp (timeData 6).sunIntensity (timeData 12).sunIntensity
        (max 0 (min 1 ((h - 6) / (12 - 6)))) = lerp (3 / 10) 1 ((h - 6) / 6)
    rw [hcl]
    norm_num [timeData, dawnData, noonData, lerp]
  · intro h h1 h2
    rcases eq_or_lt_of_le h1 with heq | hlt
    · rw [← heq, hk12]
      norm_num [noonData, lerp]
    · have hbr : findBracket h = (12, 14) := by
        unfold findBracket
        rw [if_neg (by rintro ⟨_, ha⟩; linarith), if_pos ⟨by linarith, h2⟩]
      have hcl : max 0 (min 1 ((h - 12) / ((14 : ℚ) - 12))) = (h - 12) / ((14 : ℚ) - 12) := by
        have hd : (0 : ℚ) < 14 - 12 := by norm_num
        have hf0 : 0 ≤ (h - 12) / ((14 : ℚ) - 12) := div_nonneg (by linarith) (le_of_lt hd)
        have hf1 : (h - 12) / ((14 : ℚ) - 12) ≤ 1 := by
          rw [div_le_one hd]; linarith
        rw [min_eq_right hf1, max_eq_right hf0]
      rw [calcLighting_of_bracket hbr]
      show lerp (timeData 12).sunIntensity (timeData 14).sunIntensity
          (max 0 (min 1 ((h - 12) / (14 - 12)))) = lerp 1 (9 / 10) ((h - 12) / 2)
      rw [hcl]
      norm_num [timeData, noonData, afternoonData, lerp]
  · intro h h1 h2
    rcases eq_or_lt_of_le h1 with heq | hlt
    · rw [← heq, hk14]
      norm_num [afternoonData, lerp]
    · have hbr : findBracket h = (14, 18) := by
        unfold findBracket
        rw [if_neg (by rintro ⟨_, ha⟩; linarith), if_neg (by rintro ⟨_, ha⟩; linarith),
          if_pos ⟨by linarith, h2⟩]
      have hcl : max 0 (min 1 ((h - 14) / ((18 : ℚ) - 14))) = (h - 14) / ((18 : ℚ) - 14) := by
        have hd : (0 : ℚ) < 18 - 14 := by norm_num
        have hf0 : 0 ≤ (h - 14) / ((18 : ℚ) - 14) := div_nonneg (by linarith) (le_of_lt hd)
        have hf1 : (h - 14) / ((18 : ℚ) - 14) ≤ 1 := by
          rw [div_le_one hd]; linarith
        rw [min_eq_right hf1, max_eq_right hf0]
      rw [calcLighting_of_bracket hbr]
      show lerp (timeData 14).sunIntensity (timeData 18).sunIntensity
          (max 0 (min 1 ((h - 14) / (18 - 14)))) = lerp (9 / 10) (4 / 10) ((h - 14) / 4)
      rw [hcl]
      norm_num [timeData, afternoonData, sunsetData, lerp]
  · intro h h1 h2
    rcases eq_or_lt_of_le h1 with heq | hlt
    · rw [← heq, hk18]
      norm_num [sunsetData, lerp]
    · have hbr : findBracket h = (18, 22) := by
        unfold findBracket
        rw [if_neg (by rintro ⟨_, ha⟩; linarith), if_neg (by rintro ⟨_, ha⟩; linarith),
          if_neg (by rintro ⟨_, ha⟩; linarith), if_pos ⟨by linarith, h2⟩]
      have hcl : max 0 (min 1 ((h - 18) / ((22 : ℚ) - 18))) = (h - 18) / ((22 : ℚ) - 18) := by
        have hd : (0 : ℚ) < 22 - 18 := by norm_num
        have hf0 : 0 ≤ (h - 18) / ((22 : ℚ) - 18) := div_nonneg (by linarith) (le_of_lt hd)
        have hf1 : (h - 18) / ((22 : ℚ) - 18) ≤ 1 := by
          rw [div_le_one hd]; linarith
        rw [min_eq_right hf1, max_eq_right hf0]
      rw [calcLighting_of_bracket hbr]
      show lerp (timeData 18).sunIntensity (timeData 22).sunIntensity
          (max 0 (min 1 ((h - 18) / (22 - 18)))) = lerp (4 / 10) (1 / 10) ((h - 18) / 4)
      rw [hcl]
      norm_num [timeData, sunsetData, nightData, lerp]

/-- Witness for C3 amended, at hours 3 (clamped to dawn) and 9 (linear
interpolation inside the 6-12 bracket). -/
theorem calculateLighting_clamped_spec_witness :
    calculateLightingForTime 3 = dawnData ∧
      (calculateLightingForTime 9).sunIntensity = lerp (3 / 10) 1 ((9 - 6) / 6) :=
  ⟨calculateLighting_clamped_spec.2.1 3 (by norm_num),
    calculateLighting_clamped_spec.2.2.2.1 9 (by norm_num) (by norm_num)⟩

/-! ## GeometryUtils displacement routines (js/utils/neWGeometryUtils.js)

`addSphereIrregularities` divides by the vertex radius with no zero
guard, so a vertex at the origin goes through `acos(0/0) = acos(NaN)` and
every output coordinate becomes NaN.  To state this we compute in
`JsNum = Option ℚ`, where `none` stands for an invalid IEEE value (NaN;
division by zero, which in JS produces Infinity or NaN, is also collapsed
to `none` — at the inputs of the claims the numerator is 0, where JS
yields NaN exactly).  The transcendental Math functions are oracle
parameters; the claims only rely on them propagating `none` and on
`Math.sqrt 0 = 0`. -/

abbrev JsNum := Option ℚ

/-- IEEE-style addition: NaN in, NaN out. -/
def jsAdd : JsNum → JsNum → JsNum
  | some a, some b => some (a + b)
  | _, _ => none

/-- IEEE-style multiplication: NaN in, NaN out (`0 * NaN = NaN`). -/
def jsMul : JsNum → JsNum → JsNum
  | some a, some b => some (a * b)
  | _, _ => none

/-- IEEE-style division: NaN in or zero divisor gives an invalid value. -/
def jsDiv : JsNum → JsNum → JsNum
  | some a, some b => if b = 0 then none else some (a / b)
  | _, _ => none

/-- MathUtils.noise3D lifted to JsNum (NaN in, NaN out). -/
def jsNoise3D (T : PermTable) : JsNum → JsNum → JsNum → JsNum
  | some a, some b, some c => some (noise3D T a b c)
  | _, _, _ => none

/-- The JS Math functions used by addSphereIrregularities, as an oracle. -/
structure MathOracle where
  sqrtF : JsNum → JsNum
  acosF : JsNum → JsNum
  sinF : JsNum → JsNum
  cosF : JsNum → JsNum
  atan2F : JsNum → JsNum → JsNum

/-- GeometryUtils.addSphereIrregularities, per vertex: spherical
coordinates `radius = sqrt(x²+y²+z²)`, `theta = atan2(z,x)`,
`phi = acos(y/radius)` (no guard on `radius = 0`), noise scale 2,
`newRadius = radius * (1 + noise3D * strength)`, converted back to
Cartesian coordinates. -/
def sphereDisplaceVertex (T : PermTable) (M : MathOracle) (strength : ℚ)
    (x y z : JsNum) : JsNum × JsNum × JsNum :=
  let radius := M.sqrtF (jsAdd (jsAdd (jsMul x x) (jsMul y y)) (jsMul z z))
  let theta := M.atan2F z x
  let phi := M.acosF (jsDiv y radius)
  let noiseValue := jsNoise3D T (jsMul x (some 2)) (jsMul y (some 2)) (jsMul z (some 2))
  let radiusMultiplier := jsAdd (some 1) (jsMul noiseValue (some strength))
  let newRadius := jsMul radius radiusMultiplier
  (jsMul (jsMul newRadius (M.sinF phi)) (M.cosF theta),
    jsMul newRadius (M.cosF phi),
    jsMul (jsMul newRadius (M.sinF phi)) (M.sinF theta))

/-- A concrete oracle for evaluating the counterexamples: it propagates
`none` (as every JS Math function propagates NaN) and agrees with the real
Math functions at the only defined value the counterexamples reach,
`sqrt 0 = 0`; elsewhere its values are irrelevant stand-ins. -/
def stubOracle : MathOracle where
  sqrtF := fun v => v.bind fun q => some q
  acosF := fun v => v.bind fun q => some (1 - q)
  sinF := fun v => v.bind fun q => some q
  cosF := fun v => v.bind fun q => some (1 - q)
  atan2F := fun a b => jsMul a b

/-- GeometryUtils.addRockIrregularities, per vertex: three octaves of 3D
noise (scales 1.5, 3, 6 with weights 1, 0.5, 0.25), displacement along the
normalized vertex direction, guarded by `if (length > 0)` so the origin
vertex is left untouched.  `sqrtQ` abstracts Math.sqrt (only its value
at 0 matters for the claim). -/
def rockDisplaceVertex (T : PermTable) (sqrtQ : ℚ → ℚ) (irregularity x y z : ℚ) :
    ℚ × ℚ × ℚ :=
  let noise1 := noise3D T (x * (3 / 2)) (y * (3 / 2)) (z * (3 / 2))
  let noise2 := noise3D T (x * 3) (y * 3) (z * 3) * (1 / 2)
  let noise3v := noise3D T (x * 6) (y * 6) (z * 6) * (1 / 4)
  let totalNoise := noise1 + noise2 + noise3v
  let displacement := totalNoise * irregularity
  let len := sqrtQ (x * x + y * y + z * z)
  if 0 < len then
    (x + x / len * displacement, y + y / len * displacement, z + z / len * displacement)
  else
    (x, y, z)

/-- GeometryUtils.addTrunkIrregularities, per vertex: height fraction
along the trunk, noise at `(angle * 0.5, y * 0.5 * 0.3)` (the angle is
`Math.atan2(z, x)`, supplied as an oracle value; the computed `radius` in
the source is never used), displacement strength
`irregularity * (1 - heightRatio * 0.5)`, applied as a radius multiplier
to x and z. -/
def trunkDisplaceVertex (T : PermTable) (atanZX cfgHeight irregularity x y z : ℚ) :
    ℚ × ℚ × ℚ :=
  let heightFrac := (y + cfgHeight / 2) / cfgHeight
  let angle := atanZX
  let noiseValue := noise T (angle * (1 / 2)) (y * (1 / 2) * (3 / 10))
  let irregularityStrength := irregularity * (1 - heightFrac * (1 / 2))
  let radiusMultiplier := 1 + noiseValue * irregularityStrength
  (x * radiusMultiplier, y, z * radiusMultiplier)

/-- C8: the rock displacement special-cases the zero-length vertex (the
`length > 0` guard) and leaves the origin vertex unchanged, but the sphere
displacement has no such guard: at the origin it divides `0 / 0` inside
`acos` and all three output coordinates become invalid (NaN) — contrary
to the specified neutral zero displacement.  Strength 0.3 is the
`irregularity` used by Environment.createRock. -/
theorem origin_vertex_displacement (T : PermTable) (sqrtQ : ℚ → ℚ) (irregularity : ℚ)
    (hsq : sqrtQ 0 = 0) :
    rockDisplaceVertex T sqrtQ irregularity 0 0 0 = (0, 0, 0) ∧
      sphereDisplaceVertex idTable stubOracle (3 / 10) (some 0) (some 0) (some 0)
        = (none, none, none) := by
  constructor
  · unfold rockDisplaceVertex
    norm_num [hsq]
  · simp [sphereDisplaceVertex, stubOracle, jsAdd, jsMul, jsDiv, jsNoise3D]

/-- Witness for C8 with Math.sqrt stubbed by the identity (which agrees
with it at 0). -/
theorem origin_vertex_displacement_witness :
    rockDisplaceVertex idTable (fun q => q) (3 / 10) 0 0 0 = (0, 0, 0) ∧
      sphereDisplaceVertex idTable stubOracle (3 / 10) (some 0) (some 0) (some 0)
        = (none, none, none) :=
  origin_vertex_displacement idTable (fun q => q) (3 / 10) rfl

/-- C9 counterexample: with strength 0 the sphere displacement does not
return the input buffer unchanged — the origin vertex comes back as
invalid (NaN) coordinates instead of `(0, 0, 0)`. -/
theorem sphere_zero_strength_changes_origin :
    sphereDisplaceVertex idTable stubOracle 0 (some 0) (some 0) (some 0)
      ≠ (some 0, some 0, some 0) := by
  have hval : sphereDisplaceVertex idTable stubOracle 0 (some 0) (some 0) (some 0)
      = (none, none, none) := by
    simp [sphereDisplaceVertex, stubOracle, jsAdd, jsMul, jsDiv, jsNoise3D]
  rw [hval]
  simp

/-- C9 amended: the trunk displacement with `irregularity = 0` is the
identity on every vertex (the radius multiplier collapses to 1); the
sphere displacement with strength 0 still rewrites each vertex through the
spherical-coordinate round-trip and maps a vertex at the origin to
invalid (NaN) coordinates rather than leaving it unchanged. -/
theorem trunk_identity_sphere_nan (T : PermTable) (atanZX cfgHeight x y z : ℚ) :
    trunkDisplaceVertex T atanZX cfgHeight 0 x y z = (x, y, z) ∧
      sphereDisplaceVertex idTable stubOracle 0 (some 0) (some 0) (some 0)
        = (none, none, none) := by
  constructor
  · unfold trunkDisplaceVertex
    norm_num
  · simp [sphereDisplaceVertex, stubOracle, jsAdd, jsMul, jsDiv, jsNoise3D]

end VrBox
